import Mathlib

/-!
Verification of the TracMath render-and-cache subsystem (tracmath.py)
against its natural-language specification.  The definitions below are a
shallow embedding of the plugin's code: pure string manipulation is
translated directly, filesystem state is passed explicitly as a list of
(name, mtime) entries, and the external toolchain is an oracle supplying
exit codes, captured streams and the files each run creates.
-/

namespace TracMath

/-! ## Path handling (os.path.join and the request routing of process_request) -/

/-- Is sep a prefix of the list; if so, the remainder after it. -/
def dropSep : List Char → List Char → Option (List Char)
  | [], l => some l
  | _ :: _, [] => none
  | s :: ss, c :: cs => if s = c then dropSep ss cs else none

/-- Python str.split(sep) for a non-empty separator, with fuel so the
recursion is structural: at each position an occurrence of the separator
cuts a new piece, otherwise the character joins the current piece.  Each
step consumes at least one character, so the list's length is enough
fuel. -/
def splitSepFuel (sep : List Char) : Nat → List Char → List (List Char)
  | _, [] => [[]]
  | 0, l => [l]
  | fuel + 1, c :: rest =>
    match dropSep sep (c :: rest) with
    | some rem => [] :: splitSepFuel sep fuel rem
    | none =>
      match splitSepFuel sep fuel rest with
      | l :: ls => (c :: l) :: ls
      | [] => [[c]]

/-- Python str.split(sep), non-empty separator, empty pieces kept. -/
def splitSep (sep l : List Char) : List (List Char) :=
  splitSepFuel sep l.length l

/-- POSIX os.path.join for two components, as the plugin uses it: an
absolute second component replaces the first; otherwise a separator is
inserted unless one is already there. -/
def osPathJoinL (a b : List Char) : List Char :=
  if b.take 1 = ['/'] then b
  else if a.isEmpty || a.getLast? == some '/' then a ++ b
  else a ++ '/' :: b

/-- os.path.join on strings. -/
def osPathJoin (a b : String) : String := String.mk (osPathJoinL a.data b.data)

/-- process_request (IRequestHandler): splits path_info on the route marker
"/tracmath", drops empty pieces, splits the first piece on "/", drops empty
segments, and serves os.path.join(cache_dir, first segment); returns none
(no file served) when no segment remains. -/
def processRequest (cacheDir pathInfo : String) : Option String :=
  match (splitSep "/tracmath".data pathInfo.data).filter (fun s => !s.isEmpty) with
  | [] => none
  | piece :: _ =>
    match (splitSep ['/'] piece).filter (fun s => !s.isEmpty) with
    | [] => none
    | n :: _ => some (osPathJoin cacheDir (String.mk n))

/-- Filesystem path normalisation into segments: "." is dropped and ".."
removes the previous segment, so "inside the cache directory" means the
cache directory's segments are a prefix of the resolved path's segments. -/
def normSegments (p : String) : List (List Char) :=
  ((splitSep ['/'] p.data).filter (fun s => !s.isEmpty)).foldl
    (fun acc s =>
      if s = ['.'] then acc
      else if s = ['.', '.'] then acc.dropLast
      else acc ++ [s]) []

/-! ## Whitespace stripping (Python str.strip) and UTF-8 bytes -/

/-- The whitespace characters Python's strip removes. -/
def isPySpace (c : Char) : Bool :=
  c == ' ' || c == '\t' || c == '\n' || c == '\r' || c == '\x0B' || c == '\x0C'

/-- Drop trailing characters satisfying p. -/
def dropTrailing (p : Char → Bool) (l : List Char) : List Char :=
  (l.reverse.dropWhile p).reverse

/-- content.strip(): remove leading and trailing whitespace. -/
def stripChars (l : List Char) : List Char :=
  dropTrailing isPySpace (l.dropWhile isPySpace)

/-- content.strip() on a string. -/
def pyStrip (s : String) : String := String.mk (stripChars s.data)

/-- content.encode('utf-8') as a list of byte values. -/
def utf8Bytes (s : String) : List Nat := s.toUTF8.toList.map (fun b => b.toNat)

/-! ## Render configuration and the cache key (line 194) -/

/-- The configuration state _internal_render reads: the template digest
bytes, the resolution option, the binary paths, the denylist, the cache
bound, and the hash function (hashlib.sha1 hexdigest, kept abstract as a
function from the digested bytes to the hex string). -/
structure RenderEnv where
  templateDigest : List Nat
  pngResolution : String
  pdflatexCmd : String
  gsCmd : String
  invalidCommands : List String
  maxPng : Nat
  sha1hex : List Nat → String

/-- key = sha1(content.encode('utf-8') + template_digest + str(png_resolution))
.hexdigest(), where content has been stripped (line 192). -/
def deriveKey (env : RenderEnv) (content : String) : String :=
  env.sha1hex (utf8Bytes (pyStrip content) ++ env.templateDigest ++ utf8Bytes env.pngResolution)

/-! ## Content validator (_validate, lines 321-329) -/

/-- content.replace(double-backslash, ''): remove each literal pair of
backslashes, scanning left to right without overlap. -/
def removeEscapedPairs : List Char → List Char
  | '\\' :: '\\' :: rest => removeEscapedPairs rest
  | c :: rest => c :: removeEscapedPairs rest
  | [] => []

/-- The for loop over self.invalid_commands: the first denylisted string
contained in the content short-circuits. -/
def findInvalid : List (List Char) → List Char → Option (List Char)
  | [], _ => none
  | inv :: rest, content =>
    if inv <:+: content then some inv else findInvalid rest content

/-- _validate(content): strip escaped backslashes, then return the error
message naming the first denylisted command found, else nothing. -/
def pyValidate (invalids : List String) (content : String) : Option String :=
  match findInvalid (invalids.map String.data) (removeEscapedPairs content.data) with
  | some inv => some ("Invalid command in LaTeX content: " ++ String.mk inv)
  | none => none

/-! ## Label extraction (reLABEL and the loop at lines 183-187) -/

/-- The non-greedy group of reLABEL at a fixed start: the characters up to
the first closing brace; no match if a newline or the end comes first. -/
def scanLabelGroup : List Char → Option (List Char)
  | [] => none
  | '\x7d' :: _ => some []
  | '\n' :: _ => none
  | c :: rest => (scanLabelGroup rest).map (fun g => c :: g)

/-- re.search of reLABEL: the group of the leftmost match of
backslash-label-open-brace followed by a non-greedy group and a closing
brace; on a failed start position the search advances one character. -/
def labelSearch : List Char → Option (List Char)
  | [] => none
  | c :: rest =>
    if (c :: rest).take 7 = "\\label\x7b".data then
      match scanLabelGroup ((c :: rest).drop 7) with
      | some g => some g
      | none => labelSearch rest
    else labelSearch rest

/-- content.split(newline), keeping empty lines, as Python does. -/
def splitNl : List Char → List (List Char)
  | [] => [[]]
  | c :: rest =>
    if c = '\n' then [] :: splitNl rest
    else
      match splitNl rest with
      | l :: ls => (c :: l) :: ls
      | [] => [[c]]

/-- The source's per-line loop: for each line of the split content it
searches the WHOLE content and overwrites the label on a match. -/
def labelLoop (content : List Char) : Option (List Char) :=
  (splitNl content).foldl
    (fun label _line =>
      match labelSearch content with
      | some g => some g
      | none => label) none

/-- Modelled from the spec: "implement as a single first-match extraction
over the whole string" (the spec side of the refinement claim). -/
def labelSingleSearch (content : List Char) : Option (List Char) :=
  labelSearch content

/-! ## Toolchain invoker (_launch, lines 293-319) -/

/-- The diagnostic _launch builds: the command line, whether the process
failed (choosing between the succeeded-but-emitted and failed wordings),
and both captured streams. -/
structure LaunchDiag where
  cmdline : List String
  failed : Bool
  out : List Char
  err : List Char
deriving DecidableEq

/-- _launch: failure = (exit code not zero); a diagnostic is produced when
the process failed or either captured stream is non-empty; otherwise
(False, None). -/
def launch (cmdline : List String) (exitCode : Int) (out err : List Char) :
    Bool × Option LaunchDiag :=
  let failure := exitCode != 0
  if failure || !err.isEmpty || !out.isEmpty then
    (failure, some ⟨cmdline, failure, out, err⟩)
  else
    (false, none)

/-! ## Cache store (_manage_cache, lines 257-272) -/

/-- A cache-directory entry: file name and modification time. -/
structure FileEntry where
  name : String
  mtime : Nat
deriving DecidableEq

/-- Matching a suffix anchored at the end, as the regexes rePNG and
reGARBAGE do: the last characters equal the suffix. -/
def endsWithD (l suf : List Char) : Bool :=
  l.drop (l.length - suf.length) == suf

/-- rePNG: the name ends in ".png". -/
def isPng (n : String) : Bool := endsWithD n.data ".png".data

/-- reGARBAGE: the name ends in one of the intermediate-artifact suffixes. -/
def isGarbage (n : String) : Bool :=
  endsWithD n.data ".aux".data || endsWithD n.data ".log".data ||
  endsWithD n.data ".tex".data || endsWithD n.data ".dvi".data ||
  endsWithD n.data ".pdf".data

/-- os.path.exists for a name in the cache directory. -/
def fsHas (fs : List FileEntry) (n : String) : Bool :=
  fs.any (fun e => e.name == n)

/-- os.utime(path, None): refresh the entry's mtime to the current time. -/
def touchFile (fs : List FileEntry) (n : String) (now : Nat) : List FileEntry :=
  fs.map (fun e => if e.name = n then ⟨e.name, now⟩ else e)

/-- open(path, 'w'): create the file, or truncate an existing one. -/
def writeFile (fs : List FileEntry) (n : String) (now : Nat) : List FileEntry :=
  if fsHas fs n then fs.map (fun e => if e.name = n then ⟨n, now⟩ else e)
  else fs ++ [⟨n, now⟩]

/-- Lexicographic order on lists of naturals (Python tuple and byte-string
comparison). -/
def natListLE : List Nat → List Nat → Bool
  | [], _ => true
  | _ :: _, [] => false
  | a :: as, b :: bs =>
    if a < b then true else if b < a then false else natListLE as bs

/-- A file name as the sequence of its character codes. -/
def nameKey (n : String) : List Nat := n.data.map Char.toNat

/-- The order sorted() uses on the tuples (st_mtime, name) of line 267. -/
def statLE (a b : FileEntry) : Bool :=
  if a.mtime < b.mtime then true
  else if b.mtime < a.mtime then false
  else natListLE (nameKey a.name) (nameKey b.name)

/-- Insertion into a sorted list under statLE. -/
def insertSorted (e : FileEntry) : List FileEntry → List FileEntry
  | [] => [e]
  | f :: fs => if statLE e f then e :: f :: fs else f :: insertSorted e fs

/-- sorted() by (st_mtime, name) ascending. -/
def sortStats : List FileEntry → List FileEntry
  | [] => []
  | e :: es => insertSorted e (sortStats es)

/-- _manage_cache: sweep intermediate artifacts; if the png count exceeds
max_png, sort the pngs by (mtime, name) ascending, delete the slice
obtained by removing the last max_png elements (for max_png = 0 the Python
slice stats[-0:] is the whole list, so nothing remains to delete), and
unlink the files so selected. -/
def manage_cache (maxPng : Nat) (dir : List FileEntry) : List FileEntry :=
  let kept := dir.filter (fun e => !isGarbage e.name)
  let png_files := dir.filter (fun e => isPng e.name)
  if maxPng < png_files.length then
    let stats := sortStats png_files
    let doomed := if maxPng = 0 then [] else stats.take (stats.length - maxPng)
    kept.filter (fun e => !(doomed.any (fun d => d.name == e.name)))
  else kept

/-! ## Render pipeline (_internal_render, lines 179-255) -/

/-- The outcomes _internal_render can return: the unknown-macro error, the
validation error, the tex-write error, a toolchain error carrying the
launch diagnostic, or the rendered image reference. -/
inductive RenderOutcome where
  | errUnknownMacro (name : String)
  | errValidation (msg : String)
  | errTexWrite
  | errToolchain (diag : Option LaunchDiag)
  | ok (imgName : String) (label : Option (List Char))
deriving DecidableEq

/-- What one call to _internal_render did: its outcome, the resulting cache
directory, and how many subprocesses it spawned. -/
structure RenderTrace where
  outcome : RenderOutcome
  fs : List FileEntry
  spawned : Nat
deriving DecidableEq

/-- One external process run as the environment supplies it: exit code,
captured streams, and the files the run leaves in the cache directory. -/
structure ToolchainRun where
  exitCode : Int
  out : List Char
  err : List Char
  files : List FileEntry
deriving DecidableEq

/-- The external world of a miss-fill: whether the tex write succeeds, and
the pdflatex and gs runs. -/
structure ToolchainOracle where
  texWriteOk : Bool
  latexRun : ToolchainRun
  gsRun : ToolchainRun
deriving DecidableEq

/-- _internal_render: unknown-macro check, label loop, strip, key, cache
check; on a hit touch the png and return the image reference; on a miss
validate, write the tex file, run pdflatex then gs (each aborting on a
failed launch), and run _manage_cache before returning the reference. -/
def internalRender (env : RenderEnv) (oracle : ToolchainOracle) (now : Nat)
    (name content : String) (fs : List FileEntry) : RenderTrace :=
  if name ≠ "latex" then ⟨.errUnknownMacro name, fs, 0⟩
  else
    let label := labelLoop content.data
    let key := deriveKey env content
    let imgname := key ++ ".png"
    if fsHas fs imgname then
      ⟨.ok imgname label, touchFile fs imgname now, 0⟩
    else
      match pyValidate env.invalidCommands (pyStrip content) with
      | some msg => ⟨.errValidation msg, fs, 0⟩
      | none =>
        if !oracle.texWriteOk then ⟨.errTexWrite, fs, 0⟩
        else
          let fs1 := writeFile fs (key ++ ".tex") now
          let latexArgs := [env.pdflatexCmd, "-interaction=nonstopmode", key ++ ".tex"]
          let r1 := launch latexArgs oracle.latexRun.exitCode oracle.latexRun.out oracle.latexRun.err
          let fs2 := fs1 ++ oracle.latexRun.files
          if r1.1 then ⟨.errToolchain r1.2, fs2, 1⟩
          else
            let gsArgs := [env.gsCmd, "-dSAFER", "-dBATCH", "-dNOPAUSE",
              "-r" ++ env.pngResolution, "-sDEVICE=pngalpha", "-dGraphicsAlphaBits=4",
              "-dTextAlphaBits=4", "-sOutputFile=" ++ imgname, key ++ ".pdf"]
            let r2 := launch gsArgs oracle.gsRun.exitCode oracle.gsRun.out oracle.gsRun.err
            let fs3 := fs2 ++ oracle.gsRun.files
            if r2.1 then ⟨.errToolchain r2.2, fs3, 2⟩
            else ⟨.ok imgname label, manage_cache env.maxPng fs3, 2⟩

/-! ## Configuration loading (_load_config, lines 274-291) and expand_macro -/

/-- The trac.ini options _load_config reads. -/
structure TracConfig where
  cacheDirOption : String
  envPath : String
  pdflatexCmd : String
  gsCmd : String
deriving DecidableEq

/-- What _load_config can do: return an error message, raise an uncaught
OSError (os.mkdir on an uncreatable directory), or succeed with the
resolved cache directory. -/
inductive ConfigOutcome where
  | err (msg : String)
  | raised
  | ok (cacheDir : String)
deriving DecidableEq

/-- The cache directory _load_config resolves: the option itself when
absolute (os.path.isabs), else joined to the environment path. -/
def resolvedCacheDir (cfg : TracConfig) : String :=
  if cfg.cacheDirOption.data.take 1 = ['/'] then cfg.cacheDirOption
  else osPathJoin cfg.envPath cfg.cacheDirOption

/-- _load_config over an abstract filesystem: `existing` lists the paths
that exist and mkdirOk says whether os.mkdir of the cache directory would
succeed.  An empty cache_dir option errors; a relative cache_dir is joined
to the environment path; a missing cache directory is created, raising if
creation fails; then both binary paths are checked. -/
def loadConfig (cfg : TracConfig) (existing : List String) (mkdirOk : Bool) :
    ConfigOutcome :=
  if cfg.cacheDirOption = "" then
    .err "The [tracmath] section is missing the cache_dir field."
  else
    let cacheDir := resolvedCacheDir cfg
    if !(existing.contains cacheDir) && !mkdirOk then .raised
    else if !(existing.contains cfg.pdflatexCmd) then
      .err ("Could not find pdflatex binary at " ++ cfg.pdflatexCmd)
    else if !(existing.contains cfg.gsCmd) then
      .err ("Could not find gs binary at " ++ cfg.gsCmd)
    else .ok cacheDir

/-- What a render entry point returns to the host: an error fragment
(_show_err), an uncaught exception, or the pipeline's trace. -/
inductive MacroResult where
  | errFragment (msg : String)
  | raised
  | rendered (tr : RenderTrace)
deriving DecidableEq

/-- expand_macro (and render): run _load_config, surface its error message
as an error fragment, propagate a raised exception, else run the
pipeline. -/
def expandMacro (cfg : TracConfig) (existing : List String) (mkdirOk : Bool)
    (env : RenderEnv) (oracle : ToolchainOracle) (now : Nat)
    (name content : String) (fs : List FileEntry) : MacroResult :=
  match loadConfig cfg existing mkdirOk with
  | .err m => .errFragment m
  | .raised => .raised
  | .ok _ => .rendered (internalRender env oracle now name content fs)

/-! ## Concrete sample values used by the witness theorems -/

/-- A concrete configuration state: a stub hash function standing in for
sha1 hexdigest, the default resolution, binaries and denylist. -/
def sampleEnv : RenderEnv :=
  ⟨[1, 2], "110", "/usr/bin/pdflatex", "/usr/bin/gs", ["\\input", "\\def"], 500,
    fun _ => "k"⟩

/-- A toolchain run that exits 0 with silent streams and creates nothing. -/
def sampleRun : ToolchainRun := ⟨0, [], [], []⟩

/-- An oracle whose tex write succeeds and whose runs are sampleRun. -/
def sampleOracle : ToolchainOracle := ⟨true, sampleRun, sampleRun⟩

/-- A cache directory holding the entry the stub key resolves to. -/
def sampleHitFs : List FileEntry := [⟨"k.png", 3⟩, ⟨"other.log", 9⟩]

/-! ## Helper lemmas -/

theorem endsWithD_eq_of (l s t : List Char) (hlen : s.length = t.length)
    (hs : endsWithD l s = true) (ht : endsWithD l t = true) : s = t := by
  unfold endsWithD at hs ht
  rw [beq_iff_eq] at hs ht
  rw [hlen] at hs
  rw [← hs]
  exact ht

theorem not_endsWithD_of_ne (l s t : List Char) (hlen : s.length = t.length)
    (hne : s ≠ t) (hs : endsWithD l s = true) : endsWithD l t = false := by
  cases ht : endsWithD l t
  · rfl
  · exact absurd (endsWithD_eq_of l s t hlen hs ht) hne

theorem isPng_not_garbage (n : String) (h : isPng n = true) : isGarbage n = false := by
  unfold isPng at h
  unfold isGarbage
  rw [not_endsWithD_of_ne n.data ".png".data ".aux".data (by decide) (by decide) h,
      not_endsWithD_of_ne n.data ".png".data ".log".data (by decide) (by decide) h,
      not_endsWithD_of_ne n.data ".png".data ".tex".data (by decide) (by decide) h,
      not_endsWithD_of_ne n.data ".png".data ".dvi".data (by decide) (by decide) h,
      not_endsWithD_of_ne n.data ".png".data ".pdf".data (by decide) (by decide) h]
  rfl

theorem filter_png_of_filter_not_garbage (dir : List FileEntry) :
    (dir.filter (fun e => !isGarbage e.name)).filter (fun e => isPng e.name) =
      dir.filter (fun e => isPng e.name) := by
  rw [List.filter_filter]
  apply List.filter_congr
  intro e _
  cases hp : isPng e.name
  · simp
  · simp [isPng_not_garbage e.name hp]

theorem splitNl_ne_nil (l : List Char) : splitNl l ≠ [] := by
  cases l with
  | nil => simp [splitNl]
  | cons c rest =>
    unfold splitNl
    split
    · simp
    · split <;> simp

theorem foldl_keep {α β : Type _} (l : List α) (init : β) :
    l.foldl (fun acc _ => acc) init = init := by
  induction l generalizing init with
  | nil => rfl
  | cons x xs ih => exact ih init

theorem foldl_const_some {α β : Type _} (g : β) (l : List α) (init : Option β)
    (h : l ≠ []) : l.foldl (fun _ _ => some g) init = some g := by
  induction l generalizing init with
  | nil => exact absurd rfl h
  | cons x xs ih =>
    cases xs with
    | nil => rfl
    | cons y ys => exact ih (some g) (by simp)

/-! ## Claim theorems -/

/-- Claim C1 (code_bug evidence): the fetch handler, given the request path
containing the parent-directory segment "..", resolves the path
cache_dir/.. and hands it to send_file; that path normalises to the PARENT
of the cache directory, so the resolution is outside the cache directory
rather than failing closed. -/
theorem c1_fetch_traversal_escape :
    processRequest "/srv/trac/tmcache" "/tracmath/.." = some "/srv/trac/tmcache/.." ∧
    ¬ (normSegments "/srv/trac/tmcache" <+: normSegments "/srv/trac/tmcache/..") ∧
    normSegments "/srv/trac/tmcache/.." = ["srv".data, "trac".data] := by
  refine ⟨by decide, by decide, by decide⟩

/-- Claim C2 (counterexample): a process that exits 0 with non-empty stdout
gets failed = false from _launch, contradicting the claim that the failed
flag is also true in that case. -/
theorem c2_zero_exit_with_output_not_failed :
    ("warning".data ≠ []) ∧
    (launch ["/usr/bin/pdflatex", "-interaction=nonstopmode", "k.tex"] 0
      "warning".data []).1 = false := by
  refine ⟨by decide, by decide⟩

/-- Claim C2 (amended): the failed flag returned by _launch is true exactly
when the exit code is non-zero; the diagnostic is absent exactly when the
exit code is zero and both captured streams are empty (so exit 0 with
output yields failed = false TOGETHER WITH a diagnostic); on a silent
zero-exit run the result is (false, none). -/
theorem c2_launch_flag_and_diagnostic (cmd : List String) (ec : Int)
    (out err : List Char) :
    (launch cmd ec out err).1 = (ec != 0) ∧
    ((launch cmd ec out err).2 = none ↔ ec = 0 ∧ out = [] ∧ err = []) ∧
    (∀ d, (launch cmd ec out err).2 = some d →
      d.failed = (ec != 0) ∧ d.cmdline = cmd ∧ d.out = out ∧ d.err = err) := by
  simp only [launch]
  by_cases h : ((ec != 0) || !err.isEmpty || !out.isEmpty) = true
  · rw [if_pos h]
    refine ⟨rfl, ?_, ?_⟩
    · constructor
      · intro hc; exact absurd hc (by simp)
      · rintro ⟨rfl, rfl, rfl⟩
        simp at h
    · intro d hd
      injection hd with hd
      subst hd
      exact ⟨rfl, rfl, rfl, rfl⟩
  · rw [if_neg h]
    have h0 : ((ec != 0) = false) ∧ err.isEmpty = true ∧ out.isEmpty = true := by
      cases hb : (ec != 0) with
      | true => exact absurd (by rw [hb]; rfl) h
      | false =>
        cases he : err.isEmpty with
        | false => exact absurd (by rw [hb, he]; rfl) h
        | true =>
          cases ho : out.isEmpty with
          | false => exact absurd (by rw [hb, he, ho]; rfl) h
          | true => exact ⟨rfl, rfl, rfl⟩
    obtain ⟨h1, h2, h3⟩ := h0
    have hec : ec = 0 := bne_eq_false_iff_eq.mp h1
    have herr : err = [] := List.isEmpty_iff.mp h2
    have hout : out = [] := List.isEmpty_iff.mp h3
    refine ⟨by rw [h1], ?_, ?_⟩
    · simp [hec, herr, hout]
    · intro d hd; exact absurd hd (by simp)

/-- Claim C9: the per-line label-extraction loop of _internal_render, which
splits the content on newlines but searches the WHOLE content at each
iteration, computes exactly the single first-match search over the whole
content (the spec's replacement formulation). -/
theorem c9_label_loop_eq_single_search (content : List Char) :
    labelLoop content = labelSingleSearch content := by
  unfold labelLoop labelSingleSearch
  cases h : labelSearch content with
  | none =>
    simp only [h]
    exact foldl_keep _ _
  | some g =>
    simp only [h]
    exact foldl_const_some g _ none (splitNl_ne_nil content)

/-- Claim C10: with max_png = 0 and at least one png entry present, one
call to _manage_cache deletes no png file: the Python deletion slice
del stats[-0:] empties the whole candidate list, so the png count stays
positive instead of being reduced to the configured maximum 0. -/
theorem c10_max_png_zero_deletes_nothing (dir : List FileEntry)
    (h : 0 < (dir.filter (fun e => isPng e.name)).length) :
    (manage_cache 0 dir).filter (fun e => isPng e.name) =
      dir.filter (fun e => isPng e.name) ∧
    0 < ((manage_cache 0 dir).filter (fun e => isPng e.name)).length := by
  have hres : manage_cache 0 dir = dir.filter (fun e => !isGarbage e.name) := by
    unfold manage_cache
    rw [if_pos h]
    simp
  rw [hres, filter_png_of_filter_not_garbage]
  exact ⟨rfl, h⟩

/-- Claim C10 witness: a one-entry cache with max_png = 0 keeps its png. -/
theorem c10_witness :
    (manage_cache 0 [⟨"b.png", 2⟩]).filter (fun e => isPng e.name) =
      ([⟨"b.png", 2⟩] : List FileEntry).filter (fun e => isPng e.name) :=
  (c10_max_png_zero_deletes_nothing [⟨"b.png", 2⟩] (by decide)).1

theorem findInvalid_none_iff (invs : List (List Char)) (c : List Char) :
    findInvalid invs c = none ↔ ∀ x ∈ invs, ¬ x <:+: c := by
  induction invs with
  | nil => simp [findInvalid]
  | cons a as ih =>
    by_cases h : a <:+: c
    · simp only [findInvalid, if_pos h]
      constructor
      · intro hc; exact absurd hc (by simp)
      · intro hall; exact absurd h (hall a (by simp))
    · simp only [findInvalid, if_neg h, ih]
      constructor
      · intro hall x hx
        rcases List.mem_cons.mp hx with rfl | hx'
        · exact h
        · exact hall x hx'
      · intro hall x hx
        exact hall x (List.mem_cons_of_mem a hx)

theorem findInvalid_some_iff (invs : List (List Char)) (c e : List Char) :
    findInvalid invs c = some e ↔
      ∃ l₁ l₂, invs = l₁ ++ e :: l₂ ∧ e <:+: c ∧ ∀ x ∈ l₁, ¬ x <:+: c := by
  induction invs with
  | nil =>
    simp only [findInvalid]
    constructor
    · intro hc; exact absurd hc (by simp)
    · rintro ⟨l₁, l₂, heq, -, -⟩
      exact absurd heq.symm (List.append_ne_nil_of_right_ne_nil l₁ (by simp))
  | cons a as ih =>
    by_cases h : a <:+: c
    · simp only [findInvalid, if_pos h]
      constructor
      · intro hc
        injection hc with hc
        subst hc
        exact ⟨[], as, rfl, h, by simp⟩
      · rintro ⟨l₁, l₂, heq, he, hnone⟩
        cases l₁ with
        | nil =>
          rw [List.nil_append] at heq
          injection heq with h1 h2
          rw [h1]
        | cons b bs =>
          rw [List.cons_append] at heq
          injection heq with h1 h2
          subst h1
          exact absurd h (hnone a (by simp))
    · simp only [findInvalid, if_neg h, ih]
      constructor
      · rintro ⟨l₁, l₂, heq, he, hnone⟩
        refine ⟨a :: l₁, l₂, by rw [heq, List.cons_append], he, ?_⟩
        intro x hx
        rcases List.mem_cons.mp hx with rfl | hx'
        · exact h
        · exact hnone x hx'
      · rintro ⟨l₁, l₂, heq, he, hnone⟩
        cases l₁ with
        | nil =>
          rw [List.nil_append] at heq
          injection heq with h1 h2
          subst h1
          exact absurd he h
        | cons b bs =>
          rw [List.cons_append] at heq
          injection heq with h1 h2
          exact ⟨bs, l₂, h2, he, fun x hx => hnone x (List.mem_cons_of_mem b hx)⟩

/-- Claim C6: _validate returns nothing exactly when no denylisted string
is contained in the copy of the source with the literal double-backslash
pairs removed; when it returns an error, the error names exactly the FIRST
denylisted string (in denylist order) contained in that stripped copy. -/
theorem c6_validator_first_denylisted (invalids : List String) (content : String) :
    (pyValidate invalids content = none ↔
      ∀ inv ∈ invalids, ¬ inv.data <:+: removeEscapedPairs content.data) ∧
    (∀ e, findInvalid (invalids.map String.data) (removeEscapedPairs content.data) = some e ↔
      ∃ l₁ l₂, invalids.map String.data = l₁ ++ e :: l₂ ∧
        e <:+: removeEscapedPairs content.data ∧
        ∀ x ∈ l₁, ¬ x <:+: removeEscapedPairs content.data) ∧
    (∀ e, findInvalid (invalids.map String.data) (removeEscapedPairs content.data) = some e →
      pyValidate invalids content =
        some ("Invalid command in LaTeX content: " ++ String.mk e)) := by
  refine ⟨?_, ?_, ?_⟩
  · cases hf : findInvalid (invalids.map String.data) (removeEscapedPairs content.data) with
    | none =>
      have hval : pyValidate invalids content = none := by
        unfold pyValidate; rw [hf]
      rw [hval]
      constructor
      · intro _ inv hinv
        exact (findInvalid_none_iff _ _).mp hf inv.data
          (List.mem_map_of_mem String.data hinv)
      · intro _; rfl
    | some e =>
      have hval2 : pyValidate invalids content =
          some ("Invalid command in LaTeX content: " ++ String.mk e) := by
        unfold pyValidate; rw [hf]
      rw [hval2]
      constructor
      · intro hc; exact absurd hc (by simp)
      · intro hall
        obtain ⟨l₁, l₂, heq, he, -⟩ := (findInvalid_some_iff _ _ _).mp hf
        have hmem : e ∈ invalids.map String.data := by
          rw [heq]; exact List.mem_append_right l₁ (by simp)
        obtain ⟨inv, hinv, rfl⟩ := List.mem_map.mp hmem
        exact absurd he (hall inv hinv)
  · intro e; exact findInvalid_some_iff _ _ e
  · intro e hf
    unfold pyValidate
    rw [hf]

theorem internalRender_hit (env : RenderEnv) (oracle : ToolchainOracle) (now : Nat)
    (content : String) (fs : List FileEntry)
    (h : fsHas fs (deriveKey env content ++ ".png") = true) :
    internalRender env oracle now "latex" content fs =
      ⟨.ok (deriveKey env content ++ ".png") (labelLoop content.data),
        touchFile fs (deriveKey env content ++ ".png") now, 0⟩ := by
  unfold internalRender
  rw [if_neg (fun hc => hc rfl)]
  dsimp only
  rw [if_pos h]

theorem internalRender_miss_invalid (env : RenderEnv) (oracle : ToolchainOracle)
    (now : Nat) (content : String) (fs : List FileEntry) (m : String)
    (hmiss : fsHas fs (deriveKey env content ++ ".png") = false)
    (hval : pyValidate env.invalidCommands (pyStrip content) = some m) :
    internalRender env oracle now "latex" content fs = ⟨.errValidation m, fs, 0⟩ := by
  unfold internalRender
  rw [if_neg (fun hc => hc rfl)]
  dsimp only
  rw [if_neg (by rw [hmiss]; exact Bool.false_ne_true), hval]

theorem internalRender_miss_valid_not_validation (env : RenderEnv)
    (oracle : ToolchainOracle) (now : Nat) (content : String) (fs : List FileEntry)
    (hmiss : fsHas fs (deriveKey env content ++ ".png") = false)
    (hval : pyValidate env.invalidCommands (pyStrip content) = none) :
    ∀ m, (internalRender env oracle now "latex" content fs).outcome ≠
      .errValidation m := by
  intro m
  unfold internalRender
  rw [if_neg (fun hc => hc rfl)]
  dsimp only
  rw [if_neg (by rw [hmiss]; exact Bool.false_ne_true), hval]
  dsimp only
  split
  · simp
  · split
    · simp
    · split <;> simp

/-- Claim C4: the pipeline returns a validation error exactly when the
cache lookup for the derived key misses AND the validator rejects the
stripped content; in that case the filesystem is untouched and no
subprocess is spawned; and on a cache hit the cached image is served with
the validator never consulted (the outcome is ok whatever the content
contains). -/
theorem c4_validation_only_on_miss (env : RenderEnv) (oracle : ToolchainOracle)
    (now : Nat) (content : String) (fs : List FileEntry) :
    ((∃ m, (internalRender env oracle now "latex" content fs).outcome =
        .errValidation m) ↔
      (fsHas fs (deriveKey env content ++ ".png") = false ∧
        pyValidate env.invalidCommands (pyStrip content) ≠ none)) ∧
    (∀ m, fsHas fs (deriveKey env content ++ ".png") = false →
      pyValidate env.invalidCommands (pyStrip content) = some m →
      internalRender env oracle now "latex" content fs =
        ⟨.errValidation m, fs, 0⟩) ∧
    (fsHas fs (deriveKey env content ++ ".png") = true →
      (internalRender env oracle now "latex" content fs).outcome =
        .ok (deriveKey env content ++ ".png") (labelLoop content.data)) := by
  refine ⟨?_, ?_, ?_⟩
  · constructor
    · rintro ⟨m, hm⟩
      cases hhit : fsHas fs (deriveKey env content ++ ".png") with
      | true =>
        rw [internalRender_hit env oracle now content fs hhit] at hm
        exact absurd hm (by simp)
      | false =>
        cases hval : pyValidate env.invalidCommands (pyStrip content) with
        | none =>
          exact absurd hm
            (internalRender_miss_valid_not_validation env oracle now content fs hhit hval m)
        | some m' => exact ⟨rfl, by simp⟩
    · rintro ⟨hmiss, hne⟩
      cases hval : pyValidate env.invalidCommands (pyStrip content) with
      | none => exact absurd hval hne
      | some m =>
        refine ⟨m, ?_⟩
        rw [internalRender_miss_invalid env oracle now content fs m hmiss hval]
  · intro m hmiss hval
    exact internalRender_miss_invalid env oracle now content fs m hmiss hval
  · intro hhit
    rw [internalRender_hit env oracle now content fs hhit]

/-- Claim C4 witness: content containing the denylisted command backslash
input is nevertheless served from the cache on a hit, with no validation
outcome. -/
theorem c4_witness :
    (internalRender sampleEnv sampleOracle 7 "latex" "\\input x" sampleHitFs).outcome =
      .ok (deriveKey sampleEnv "\\input x" ++ ".png")
        (labelLoop "\\input x".data) :=
  (c4_validation_only_on_miss sampleEnv sampleOracle 7 "\\input x" sampleHitFs).2.2
    (by decide)

/-- Claim C7: on a cache hit the pipeline spawns no subprocess, refreshes
the png entry's mtime to the current time, and neither creates, deletes,
nor modifies any other cache entry. -/
theorem c7_hit_touches_only (env : RenderEnv) (oracle : ToolchainOracle)
    (now : Nat) (content : String) (fs : List FileEntry)
    (h : fsHas fs (deriveKey env content ++ ".png") = true) :
    (internalRender env oracle now "latex" content fs).spawned = 0 ∧
    (internalRender env oracle now "latex" content fs).outcome =
      .ok (deriveKey env content ++ ".png") (labelLoop content.data) ∧
    (internalRender env oracle now "latex" content fs).fs =
      fs.map (fun e =>
        if e.name = deriveKey env content ++ ".png" then ⟨e.name, now⟩ else e) ∧
    (internalRender env oracle now "latex" content fs).fs.length = fs.length ∧
    (∀ e ∈ fs, e.name ≠ deriveKey env content ++ ".png" →
      e ∈ (internalRender env oracle now "latex" content fs).fs) ∧
    (∀ e ∈ (internalRender env oracle now "latex" content fs).fs,
      e.name = deriveKey env content ++ ".png" → e.mtime = now) := by
  rw [internalRender_hit env oracle now content fs h]
  refine ⟨rfl, rfl, rfl, ?_, ?_, ?_⟩
  · exact List.length_map fs _
  · intro e he hne
    unfold touchFile
    exact List.mem_map.mpr ⟨e, he, by rw [if_neg hne]⟩
  · intro e he hname
    obtain ⟨a, ha, hae⟩ := List.mem_map.mp he
    by_cases hcase : a.name = deriveKey env content ++ ".png"
    · rw [if_pos hcase] at hae
      rw [← hae]
    · rw [if_neg hcase] at hae
      rw [← hae] at hname
      exact absurd hname hcase

/-- Claim C7 witness: a hit on the sample cache spawns no subprocess and
leaves the directory with only the png's mtime refreshed. -/
theorem c7_witness :
    (internalRender sampleEnv sampleOracle 42 "latex" "c" sampleHitFs).spawned = 0 ∧
    (internalRender sampleEnv sampleOracle 42 "latex" "c" sampleHitFs).fs =
      sampleHitFs.map (fun e =>
        if e.name = deriveKey sampleEnv "c" ++ ".png" then ⟨e.name, 42⟩ else e) :=
  ⟨(c7_hit_touches_only sampleEnv sampleOracle 42 "c" sampleHitFs (by decide)).1,
    (c7_hit_touches_only sampleEnv sampleOracle 42 "c" sampleHitFs (by decide)).2.2.1⟩

theorem dropWhile_append_all (p : Char → Bool) (pre l : List Char)
    (h : ∀ c ∈ pre, p c = true) : (pre ++ l).dropWhile p = l.dropWhile p := by
  induction pre with
  | nil => rfl
  | cons c cs ih =>
    rw [List.cons_append, List.dropWhile_cons, if_pos (h c (by simp))]
    exact ih (fun x hx => h x (List.mem_cons_of_mem c hx))

theorem dropWhile_all (p : Char → Bool) (l : List Char) (h : ∀ c ∈ l, p c = true) :
    l.dropWhile p = [] := by
  induction l with
  | nil => rfl
  | cons c cs ih =>
    rw [List.dropWhile_cons, if_pos (h c (by simp))]
    exact ih (fun x hx => h x (List.mem_cons_of_mem c hx))

theorem dropWhile_append_split (p : Char → Bool) (l₁ l₂ : List Char) :
    (l₁ ++ l₂).dropWhile p =
      if (l₁.dropWhile p).isEmpty then l₂.dropWhile p
      else l₁.dropWhile p ++ l₂ := by
  induction l₁ with
  | nil => simp
  | cons c cs ih =>
    rw [List.cons_append, List.dropWhile_cons, List.dropWhile_cons]
    by_cases hp : p c = true
    · rw [if_pos hp, if_pos hp, ih]
    · rw [if_neg hp, if_neg hp]
      simp

theorem dropTrailing_append_all (p : Char → Bool) (l suf : List Char)
    (h : ∀ c ∈ suf, p c = true) : dropTrailing p (l ++ suf) = dropTrailing p l := by
  unfold dropTrailing
  rw [List.reverse_append,
    dropWhile_append_all p suf.reverse l.reverse
      (fun c hc => h c (List.mem_reverse.mp hc))]

theorem stripChars_append_left (pre l : List Char)
    (h : ∀ c ∈ pre, isPySpace c = true) :
    stripChars (pre ++ l) = stripChars l := by
  unfold stripChars
  rw [dropWhile_append_all isPySpace pre l h]

theorem stripChars_append_right (suf l : List Char)
    (h : ∀ c ∈ suf, isPySpace c = true) :
    stripChars (l ++ suf) = stripChars l := by
  unfold stripChars
  rw [dropWhile_append_split]
  by_cases hemp : (l.dropWhile isPySpace).isEmpty = true
  · rw [if_pos hemp, dropWhile_all isPySpace suf h, List.isEmpty_iff.mp hemp]
  · rw [if_neg hemp]
    exact dropTrailing_append_all isPySpace _ suf h

theorem stripChars_pad (pre suf l : List Char)
    (hpre : ∀ c ∈ pre, isPySpace c = true)
    (hsuf : ∀ c ∈ suf, isPySpace c = true) :
    stripChars (pre ++ l ++ suf) = stripChars l := by
  rw [stripChars_append_right suf (pre ++ l) hsuf, stripChars_append_left pre l hpre]

theorem reverse_decomp (p : Char → Bool) (x : List Char) :
    x = (x.reverse.dropWhile p).reverse ++ (x.reverse.takeWhile p).reverse := by
  have h1 : x.reverse.takeWhile p ++ x.reverse.dropWhile p = x.reverse :=
    List.takeWhile_append_dropWhile p x.reverse
  have h2 := congrArg List.reverse h1
  rw [List.reverse_append, List.reverse_reverse] at h2
  exact h2.symm

theorem stripChars_idem (l : List Char) :
    stripChars (stripChars l) = stripChars l := by
  have hB : l.dropWhile isPySpace =
      stripChars l ++ ((l.dropWhile isPySpace).reverse.takeWhile isPySpace).reverse :=
    reverse_decomp isPySpace (l.dropWhile isPySpace)
  have hl : l.takeWhile isPySpace ++ stripChars l ++
      ((l.dropWhile isPySpace).reverse.takeWhile isPySpace).reverse = l := by
    rw [List.append_assoc, ← hB]
    exact List.takeWhile_append_dropWhile isPySpace l
  have hpad := stripChars_pad (l.takeWhile isPySpace)
    (((l.dropWhile isPySpace).reverse.takeWhile isPySpace).reverse)
    (stripChars l)
    (fun c hc => List.mem_takeWhile_imp hc)
    (fun c hc => List.mem_takeWhile_imp (List.mem_reverse.mp hc))
  rw [hl] at hpad
  exact hpad.symm

theorem pyStrip_idem (s : String) : pyStrip (pyStrip s) = pyStrip s :=
  congrArg String.mk (stripChars_idem s.data)

/-- Claim C5: the derived cache key is the configured hash of the stripped
source's UTF-8 bytes, then the template digest, then the resolution
string's bytes; stripping the source first does not change the key, and
padding the source with leading and trailing whitespace does not change
the key. -/
theorem c5_cache_key_strip_invariant (env : RenderEnv) (s : String)
    (pre suf : List Char)
    (hpre : ∀ c ∈ pre, isPySpace c = true)
    (hsuf : ∀ c ∈ suf, isPySpace c = true) :
    deriveKey env s =
      env.sha1hex (utf8Bytes (pyStrip s) ++ env.templateDigest ++
        utf8Bytes env.pngResolution) ∧
    deriveKey env (pyStrip s) = deriveKey env s ∧
    deriveKey env (String.mk (pre ++ s.data ++ suf)) = deriveKey env s := by
  refine ⟨rfl, ?_, ?_⟩
  · unfold deriveKey
    rw [pyStrip_idem]
  · unfold deriveKey
    have hps : pyStrip (String.mk (pre ++ s.data ++ suf)) = pyStrip s :=
      congrArg String.mk (stripChars_pad pre suf s.data hpre hsuf)
    rw [hps]

/-- Claim C5 witness: padding a concrete source with a leading space and a
trailing newline leaves the derived key unchanged. -/
theorem c5_witness :
    deriveKey sampleEnv (String.mk (" ".data ++ "x^2".data ++ "\n".data)) =
      deriveKey sampleEnv "x^2" :=
  (c5_cache_key_strip_invariant sampleEnv "x^2" " ".data "\n".data
    (by decide) (by decide)).2.2

/-- Claim C8 (counterexample): with an absent cache directory that cannot
be created (os.mkdir fails), the render entry point propagates the raised
OSError to the host framework instead of returning an error fragment. -/
theorem c8_uncreatable_cache_dir_raises :
    expandMacro ⟨"tmcache", "/env", "/usr/bin/pdflatex", "/usr/bin/gs"⟩
      ["/usr/bin/pdflatex", "/usr/bin/gs"] false
      sampleEnv sampleOracle 0 "latex" "x" [] = .raised := by decide

/-- Claim C8 (amended): when the cache_dir option is set and the cache
directory exists or is creatable, a missing pdflatex or gs binary path
makes the render entry point return a user-visible error fragment without
reaching the pipeline; but an absent, uncreatable cache directory raises
an uncaught exception instead. -/
theorem c8_missing_binary_error_fragment (cfg : TracConfig) (existing : List String)
    (mkdirOk : Bool) (env : RenderEnv) (oracle : ToolchainOracle) (now : Nat)
    (name content : String) (fs : List FileEntry)
    (hcd : cfg.cacheDirOption ≠ "")
    (hdir : existing.contains (resolvedCacheDir cfg) = true ∨ mkdirOk = true)
    (hbin : existing.contains cfg.pdflatexCmd = false ∨
      existing.contains cfg.gsCmd = false) :
    ∃ m, expandMacro cfg existing mkdirOk env oracle now name content fs =
      .errFragment m := by
  unfold expandMacro loadConfig
  rw [if_neg hcd]
  dsimp only
  have hnr : (!(existing.contains (resolvedCacheDir cfg)) && !mkdirOk) = false := by
    rcases hdir with h | h <;> rw [h] <;> simp
  rw [if_neg (by rw [hnr]; exact Bool.false_ne_true)]
  cases hp : existing.contains cfg.pdflatexCmd with
  | false =>
    rw [if_pos (by rfl)]
    exact ⟨_, rfl⟩
  | true =>
    have hg : existing.contains cfg.gsCmd = false := by
      rcases hbin with h | h
      · rw [hp] at h; exact absurd h (by simp)
      · exact h
    rw [if_neg (by simp), if_pos (by rw [hg]; rfl)]
    exact ⟨_, rfl⟩

/-- Claim C8 witness: a concrete configuration whose gs binary path does
not exist yields an error fragment. -/
theorem c8_witness :
    ∃ m, expandMacro ⟨"/cache", "/env", "/usr/bin/pdflatex", "/missing/gs"⟩
      ["/cache", "/usr/bin/pdflatex"] true sampleEnv sampleOracle 0 "latex" "x" [] =
      .errFragment m :=
  c8_missing_binary_error_fragment
    ⟨"/cache", "/env", "/usr/bin/pdflatex", "/missing/gs"⟩
    ["/cache", "/usr/bin/pdflatex"] true sampleEnv sampleOracle 0 "latex" "x" []
    (by decide) (by decide) (by decide)

theorem natListLE_total (a b : List Nat) : natListLE a b = true ∨ natListLE b a = true := by
  induction a generalizing b with
  | nil => left; rfl
  | cons x xs ih =>
    cases b with
    | nil => right; rfl
    | cons y ys =>
      by_cases h1 : x < y
      · left; simp [natListLE, h1]
      · by_cases h2 : y < x
        · right; simp [natListLE, h2, h1]
        · have hxy : x = y := Nat.le_antisymm (Nat.not_lt.mp h2) (Nat.not_lt.mp h1)
          subst hxy
          rcases ih ys with h | h
          · left; simp [natListLE, h]
          · right; simp [natListLE, h]

theorem natListLE_trans (a : List Nat) : ∀ b c, natListLE a b = true →
    natListLE b c = true → natListLE a c = true := by
  induction a with
  | nil => intro b c _ _; rfl
  | cons x xs ih =>
    intro b c hab hbc
    cases b with
    | nil => simp [natListLE] at hab
    | cons y ys =>
      cases c with
      | nil => simp [natListLE] at hbc
      | cons z zs =>
        simp only [natListLE] at hab hbc ⊢
        split_ifs at hab hbc ⊢ <;>
          first
            | rfl
            | exact ih ys zs hab hbc
            | (exfalso; omega)

theorem statLE_total (a b : FileEntry) : statLE a b = true ∨ statLE b a = true := by
  unfold statLE
  by_cases h1 : a.mtime < b.mtime
  · left; rw [if_pos h1]
  · by_cases h2 : b.mtime < a.mtime
    · right; rw [if_pos h2]
    · rw [if_neg h1, if_neg h2, if_neg h2, if_neg h1]
      exact natListLE_total _ _

theorem statLE_trans (a b c : FileEntry) (hab : statLE a b = true)
    (hbc : statLE b c = true) : statLE a c = true := by
  unfold statLE at hab hbc ⊢
  split_ifs at hab hbc ⊢ <;>
    first
      | rfl
      | exact natListLE_trans _ _ _ hab hbc
      | (exfalso; omega)

theorem statLE_mtime_le (a b : FileEntry) (h : statLE a b = true) :
    a.mtime ≤ b.mtime := by
  unfold statLE at h
  split_ifs at h <;> omega

theorem insertSorted_perm (e : FileEntry) (l : List FileEntry) :
    (insertSorted e l).Perm (e :: l) := by
  induction l with
  | nil => exact List.Perm.refl _
  | cons f fs ih =>
    unfold insertSorted
    by_cases h : statLE e f = true
    · rw [if_pos h]
    · rw [if_neg h]
      exact (ih.cons f).trans (List.Perm.swap e f fs)

theorem sortStats_perm (l : List FileEntry) : (sortStats l).Perm l := by
  induction l with
  | nil => exact List.Perm.refl _
  | cons e es ih =>
    unfold sortStats
    exact (insertSorted_perm e (sortStats es)).trans (ih.cons e)

theorem insertSorted_pairwise (e : FileEntry) (l : List FileEntry)
    (h : l.Pairwise (fun a b => statLE a b = true)) :
    (insertSorted e l).Pairwise (fun a b => statLE a b = true) := by
  induction l with
  | nil => exact List.pairwise_singleton _ _
  | cons f fs ih =>
    rcases List.pairwise_cons.mp h with ⟨hf, hfs⟩
    unfold insertSorted
    by_cases hef : statLE e f = true
    · rw [if_pos hef]
      refine List.pairwise_cons.mpr ⟨?_, h⟩
      intro x hx
      rcases List.mem_cons.mp hx with rfl | hx'
      · exact hef
      · exact statLE_trans e f x hef (hf x hx')
    · rw [if_neg hef]
      refine List.pairwise_cons.mpr ⟨?_, ih hfs⟩
      intro x hx
      have hx2 : x ∈ e :: fs := (insertSorted_perm e fs).mem_iff.mp hx
      rcases List.mem_cons.mp hx2 with rfl | hx'
      · rcases statLE_total x f with h' | h'
        · exact absurd h' hef
        · exact h'
      · exact hf x hx'

theorem sortStats_pairwise (l : List FileEntry) :
    (sortStats l).Pairwise (fun a b => statLE a b = true) := by
  induction l with
  | nil => exact List.Pairwise.nil
  | cons e es ih => exact insertSorted_pairwise e (sortStats es) ih

theorem manage_cache_evict_eq (maxPng : Nat) (dir : List FileEntry)
    (hmz : maxPng ≠ 0)
    (hcount : maxPng < (dir.filter (fun e => isPng e.name)).length) :
    manage_cache maxPng dir =
      (dir.filter (fun e => !isGarbage e.name)).filter
        (fun e => !(((sortStats (dir.filter (fun x => isPng x.name))).take
            ((sortStats (dir.filter (fun x => isPng x.name))).length - maxPng)).any
          (fun d => d.name == e.name))) := by
  simp only [manage_cache]
  rw [if_pos hcount, if_neg hmz]

/-- Claim C3 (counterexample): with max_png = 0 and one png entry, the png
count (1) exceeds the configured maximum (0), yet _manage_cache deletes
nothing (the Python slice del stats[-0:] clears the whole candidate list),
so the call does not leave exactly max_png png entries. -/
theorem c3_max_zero_not_evicted :
    0 < (([⟨"a.png", 1⟩] : List FileEntry).filter (fun e => isPng e.name)).length ∧
    manage_cache 0 [⟨"a.png", 1⟩] = [⟨"a.png", 1⟩] ∧
    ((manage_cache 0 [⟨"a.png", 1⟩]).filter (fun e => isPng e.name)).length ≠ 0 := by
  refine ⟨by decide, by decide, by decide⟩

/-- Claim C3 (amended): for max_png ≥ 1 and a directory whose file names
are distinct, when the png count exceeds max_png one _manage_cache call
leaves exactly max_png png entries, every surviving entry came from the
directory, and every deleted png's mtime is at most every surviving png's
mtime (the newest are retained); when the count does not exceed max_png no
png is deleted.  (For max_png = 0 nothing is deleted; see the
counterexample.) -/
theorem c3_eviction_keeps_newest (maxPng : Nat) (dir : List FileEntry)
    (hmax : 1 ≤ maxPng) (hnodup : (dir.map FileEntry.name).Nodup) :
    (maxPng < (dir.filter (fun e => isPng e.name)).length →
      ((manage_cache maxPng dir).filter (fun e => isPng e.name)).length = maxPng ∧
      (∀ d ∈ dir, isPng d.name = true → d ∉ manage_cache maxPng dir →
        ∀ k ∈ manage_cache maxPng dir, isPng k.name = true → d.mtime ≤ k.mtime)) ∧
    ((dir.filter (fun e => isPng e.name)).length ≤ maxPng →
      (manage_cache maxPng dir).filter (fun e => isPng e.name) =
        dir.filter (fun e => isPng e.name)) ∧
    (∀ k ∈ manage_cache maxPng dir, k ∈ dir) := by
  have hmz : maxPng ≠ 0 := Nat.one_le_iff_ne_zero.mp hmax
  refine ⟨?_, ?_, ?_⟩
  · intro hcount
    have hpngsnames : ((dir.filter (fun e => isPng e.name)).map FileEntry.name).Nodup :=
      hnodup.sublist ((List.filter_sublist dir).map FileEntry.name)
    have hstatsperm := sortStats_perm (dir.filter (fun e => isPng e.name))
    have hstatsnames :
        ((sortStats (dir.filter (fun e => isPng e.name))).map FileEntry.name).Nodup :=
      (hstatsperm.map FileEntry.name).nodup_iff.mpr hpngsnames
    have hdisj :
        (((sortStats (dir.filter (fun e => isPng e.name))).take
          ((sortStats (dir.filter (fun e => isPng e.name))).length - maxPng)).map
            FileEntry.name).Disjoint
        (((sortStats (dir.filter (fun e => isPng e.name))).drop
          ((sortStats (dir.filter (fun e => isPng e.name))).length - maxPng)).map
            FileEntry.name) := by
      have hn2 : (((sortStats (dir.filter (fun e => isPng e.name))).take
            ((sortStats (dir.filter (fun e => isPng e.name))).length - maxPng)).map
              FileEntry.name ++
          ((sortStats (dir.filter (fun e => isPng e.name))).drop
            ((sortStats (dir.filter (fun e => isPng e.name))).length - maxPng)).map
              FileEntry.name).Nodup := by
        rw [← List.map_append, List.take_append_drop]
        exact hstatsnames
      exact (List.nodup_append.mp hn2).2.2
    have hDrest : ∀ r ∈ (sortStats (dir.filter (fun e => isPng e.name))).drop
        ((sortStats (dir.filter (fun e => isPng e.name))).length - maxPng),
        (((sortStats (dir.filter (fun e => isPng e.name))).take
          ((sortStats (dir.filter (fun e => isPng e.name))).length - maxPng)).any
            (fun d => d.name == r.name)) = false := by
      intro r hr
      cases hv : ((sortStats (dir.filter (fun e => isPng e.name))).take
          ((sortStats (dir.filter (fun e => isPng e.name))).length - maxPng)).any
            (fun d => d.name == r.name) with
      | false => rfl
      | true =>
        exfalso
        obtain ⟨d, hd, hdn⟩ := List.any_eq_true.mp hv
        rw [beq_iff_eq] at hdn
        exact hdisj (List.mem_map_of_mem FileEntry.name hd)
          (by rw [hdn]; exact List.mem_map_of_mem FileEntry.name hr)
    have hF1 : (manage_cache maxPng dir).filter (fun e => isPng e.name) =
        (dir.filter (fun e => isPng e.name)).filter
          (fun e => !(((sortStats (dir.filter (fun x => isPng x.name))).take
              ((sortStats (dir.filter (fun x => isPng x.name))).length - maxPng)).any
            (fun d => d.name == e.name))) := by
      rw [manage_cache_evict_eq maxPng dir hmz hcount]
      rw [List.filter_filter, List.filter_filter, List.filter_filter]
      apply List.filter_congr
      intro e _
      cases hP : isPng e.name
      · simp [hP]
      · simp [hP, isPng_not_garbage e.name hP]
    have hF2 : ((dir.filter (fun e => isPng e.name)).filter
          (fun e => !(((sortStats (dir.filter (fun x => isPng x.name))).take
              ((sortStats (dir.filter (fun x => isPng x.name))).length - maxPng)).any
            (fun d => d.name == e.name)))).Perm
        ((sortStats (dir.filter (fun e => isPng e.name))).drop
          ((sortStats (dir.filter (fun e => isPng e.name))).length - maxPng)) := by
      have hp1 := (hstatsperm.symm.filter
        (fun e => !(((sortStats (dir.filter (fun x => isPng x.name))).take
            ((sortStats (dir.filter (fun x => isPng x.name))).length - maxPng)).any
          (fun d => d.name == e.name))))
      have hstf : (sortStats (dir.filter (fun e => isPng e.name))).filter
            (fun e => !(((sortStats (dir.filter (fun x => isPng x.name))).take
                ((sortStats (dir.filter (fun x => isPng x.name))).length - maxPng)).any
              (fun d => d.name == e.name))) =
          ((sortStats (dir.filter (fun e => isPng e.name))).take
            ((sortStats (dir.filter (fun e => isPng e.name))).length - maxPng)).filter
            (fun e => !(((sortStats (dir.filter (fun x => isPng x.name))).take
                ((sortStats (dir.filter (fun x => isPng x.name))).length - maxPng)).any
              (fun d => d.name == e.name))) ++
          ((sortStats (dir.filter (fun e => isPng e.name))).drop
            ((sortStats (dir.filter (fun e => isPng e.name))).length - maxPng)).filter
            (fun e => !(((sortStats (dir.filter (fun x => isPng x.name))).take
                ((sortStats (dir.filter (fun x => isPng x.name))).length - maxPng)).any
              (fun d => d.name == e.name))) := by
        rw [← List.filter_append, List.take_append_drop]
      have hdoomed : ((sortStats (dir.filter (fun e => isPng e.name))).take
            ((sortStats (dir.filter (fun e => isPng e.name))).length - maxPng)).filter
            (fun e => !(((sortStats (dir.filter (fun x => isPng x.name))).take
                ((sortStats (dir.filter (fun x => isPng x.name))).length - maxPng)).any
              (fun d => d.name == e.name))) = [] := by
        rw [List.filter_eq_nil_iff]
        intro d hd
        have hany : (((sortStats (dir.filter (fun x => isPng x.name))).take
            ((sortStats (dir.filter (fun x => isPng x.name))).length - maxPng)).any
              (fun x => x.name == d.name)) = true :=
          List.any_eq_true.mpr ⟨d, hd, beq_self_eq_true d.name⟩
        simp [hany]
      have hrest : ((sortStats (dir.filter (fun e => isPng e.name))).drop
            ((sortStats (dir.filter (fun e => isPng e.name))).length - maxPng)).filter
            (fun e => !(((sortStats (dir.filter (fun x => isPng x.name))).take
                ((sortStats (dir.filter (fun x => isPng x.name))).length - maxPng)).any
              (fun d => d.name == e.name))) =
          ((sortStats (dir.filter (fun e => isPng e.name))).drop
            ((sortStats (dir.filter (fun e => isPng e.name))).length - maxPng)) := by
        rw [List.filter_eq_self]
        intro r hr
        rw [hDrest r hr]
        rfl
      have heq := hstf.trans (by rw [hdoomed, hrest, List.nil_append])
      exact heq ▸ hp1
    have hcount' : maxPng < (sortStats (dir.filter (fun e => isPng e.name))).length := by
      rw [hstatsperm.length_eq]; exact hcount
    constructor
    · rw [hF1, hF2.length_eq, List.length_drop]
      omega
    · intro d hd hpd hdnot k' hk' hpk'
      have hk'rest : k' ∈ (sortStats (dir.filter (fun e => isPng e.name))).drop
          ((sortStats (dir.filter (fun e => isPng e.name))).length - maxPng) := by
        have hmem : k' ∈ (manage_cache maxPng dir).filter (fun e => isPng e.name) :=
          List.mem_filter.mpr ⟨hk', hpk'⟩
        rw [hF1] at hmem
        exact hF2.mem_iff.mp hmem
      have hdstats : d ∈ sortStats (dir.filter (fun e => isPng e.name)) :=
        hstatsperm.mem_iff.mpr (List.mem_filter.mpr ⟨hd, hpd⟩)
      have hdcase : d ∈ (sortStats (dir.filter (fun e => isPng e.name))).take
            ((sortStats (dir.filter (fun e => isPng e.name))).length - maxPng) ∨
          d ∈ (sortStats (dir.filter (fun e => isPng e.name))).drop
            ((sortStats (dir.filter (fun e => isPng e.name))).length - maxPng) := by
        rw [← List.mem_append, List.take_append_drop]
        exact hdstats
      rcases hdcase with hdoomedmem | hdrest
      · have hpair2 : ((sortStats (dir.filter (fun e => isPng e.name))).take
              ((sortStats (dir.filter (fun e => isPng e.name))).length - maxPng) ++
            (sortStats (dir.filter (fun e => isPng e.name))).drop
              ((sortStats (dir.filter (fun e => isPng e.name))).length - maxPng)).Pairwise
            (fun a b => statLE a b = true) := by
          rw [List.take_append_drop]
          exact sortStats_pairwise _
        exact statLE_mtime_le d k'
          ((List.pairwise_append.mp hpair2).2.2 d hdoomedmem k' hk'rest)
      · exfalso
        apply hdnot
        have hmem : d ∈ (manage_cache maxPng dir).filter (fun e => isPng e.name) := by
          rw [hF1]
          exact hF2.mem_iff.mpr hdrest
        exact List.mem_of_mem_filter hmem
  · intro hle
    have hmcne : manage_cache maxPng dir = dir.filter (fun e => !isGarbage e.name) := by
      simp only [manage_cache]
      rw [if_neg (by omega)]
    rw [hmcne, filter_png_of_filter_not_garbage]
  · intro x hx
    simp only [manage_cache] at hx
    by_cases hc : maxPng < (dir.filter (fun e => isPng e.name)).length
    · rw [if_pos hc] at hx
      exact List.mem_of_mem_filter (List.mem_of_mem_filter hx)
    · rw [if_neg hc] at hx
      exact List.mem_of_mem_filter hx

/-- Claim C3 witness: two pngs with max 1 leaves exactly one png, and a
cache under its bound is left alone. -/
theorem c3_witness :
    ((manage_cache 1 [⟨"a.png", 3⟩, ⟨"b.png", 1⟩]).filter
      (fun e => isPng e.name)).length = 1 :=
  ((c3_eviction_keeps_newest 1 [⟨"a.png", 3⟩, ⟨"b.png", 1⟩]
    (by decide) (by decide)).1 (by decide)).1

end TracMath
